import Mathlib

/-!
# Polling scheduler of `src/js/app.js`

A shallow embedding of the script's global state (`timer`, `arr_svg`, `num_svg`,
`all_done`), of its three functions `update`, `setup`, `slider.oninput` and of the
`onreadystatechange` handler installed by `update`, followed by the properties that
the design document states about them.

Modelling conventions.

* A JavaScript number is a `Number`: `NaN`, an infinity, or a finite binary64 value given
  by its rational value. The sum and the halving of line 102 round to the nearest
  binary64 value, ties to even (`round64`); the two zeros are not distinguished, the
  script never divides by one. The counter `all_done` is a `Nat`, the slider value an
  `Int`.
* Every object pushed on `arr_svg` owns one `svg` element; the element is identified by
  a number `node`, which also serves as the identity of the object captured by the
  closure of a request.
* The browser is part of the state: the intervals created by `setInterval` that are
  still active, the next interval id, the next node id, the requests that were sent and
  have not reached `readyState == 4`, and the number of child nodes of `svg_images`.
* The body of a response is `none` when line 93 throws (`JSON.parse` rejects the text, or
  the parsed value has no property `data` to read), and otherwise the number that
  `Number(JSON.parse(this.responseText).data)` evaluates to. A handler that throws has
  touched no variable.
* Animations, colours, `console.log` and `toFixed` formatting are not modelled; the text
  of a rectangle is kept as structured data (`Label`).
* An object popped from `arr_svg` stays reachable only from the closures of its own
  requests, so its mean and text are no longer tracked; what its handler does to the
  globals `all_done` and `timer` is.
-/

namespace App

/-! ## JavaScript numbers -/

/-- A JavaScript number: `NaN`, `-Infinity` or `Infinity`, or a finite value. -/
inductive Number where
  /-- The value `NaN`. -/
  | nan
  /-- The value `-Infinity` when `negative`, `Infinity` otherwise. -/
  | inf (negative : Bool)
  /-- A finite value. -/
  | fin (value : ℚ)
  deriving DecidableEq, Repr

/-- The power `2 ^ e` for an integer exponent. -/
def pow2 (e : Int) : ℚ :=
  if 0 ≤ e then ((2 ^ e.toNat : Nat) : ℚ) else 1 / ((2 ^ (-e).toNat : Nat) : ℚ)

/-- Halving `n` until it is below 2, at most `fuel` times: the number of halvings. -/
def log2Fuel : Nat → Nat → Nat
  | 0, _ => 0
  | fuel + 1, n => if n < 2 then 0 else log2Fuel fuel (n / 2) + 1

/-- For `n > 0`, the natural number `k` with `2 ^ k <= n < 2 ^ (k + 1)`. -/
def log2 (n : Nat) : Nat :=
  log2Fuel n n

/-- For `q > 0`, the integer `e` with `2 ^ e <= q < 2 ^ (e + 1)`. -/
def floorLog2 (q : ℚ) : Int :=
  let a : Int := (log2 q.num.natAbs : Int) - (log2 q.den : Int)
  if q < pow2 a then a - 1 else a

/-- The integer nearest to `q`, the even one when `q` lies halfway between two. -/
def roundHalfEven (q : ℚ) : Int :=
  let f : Int := ⌊q⌋
  if q - f < 1 / 2 then f
  else if 1 / 2 < q - f then f + 1
  else if f % 2 = 0 then f else f + 1

/-- The absolute value. -/
def magnitude (q : ℚ) : ℚ :=
  if q < 0 then -q else q

/-- Rounding of an exact result to binary64: 53 significant bits, exponent not below
`-1022` (subnormal numbers below), nearest value with ties to even, an infinity when the
rounded magnitude reaches `2 ^ 1024`. -/
def round64 (q : ℚ) : Number :=
  if q = 0 then Number.fin 0
  else
    let e : Int := max (floorLog2 (magnitude q)) (-1022)
    let ulp : ℚ := pow2 (e - 52)
    let r : ℚ := (roundHalfEven (q / ulp) : ℚ) * ulp
    if pow2 1024 ≤ magnitude r then Number.inf (decide (q < 0))
    else Number.fin r

/-- The operator `+` on numbers. -/
def Number.add : Number → Number → Number
  | Number.fin a, Number.fin b => round64 (a + b)
  | Number.fin _, Number.inf t => Number.inf t
  | Number.inf s, Number.fin _ => Number.inf s
  | Number.inf s, Number.inf t => if s = t then Number.inf s else Number.nan
  | Number.nan, _ => Number.nan
  | _, Number.nan => Number.nan

/-- The expression `x / 2`. -/
def Number.half : Number → Number
  | Number.fin a => round64 (a / 2)
  | Number.inf s => Number.inf s
  | Number.nan => Number.nan

/-- The operator `>` on numbers; false when an operand is `NaN`. -/
def Number.gt : Number → Number → Bool
  | Number.fin a, Number.fin b => decide (b < a)
  | Number.fin _, Number.inf t => t
  | Number.inf s, Number.fin _ => !s
  | Number.inf s, Number.inf t => !s && t
  | Number.nan, _ => false
  | _, Number.nan => false

/-- The test `x >= 0`. -/
def Number.nonneg : Number → Bool
  | Number.fin a => decide (0 ≤ a)
  | Number.inf s => !s
  | Number.nan => false

/-! ## The page -/

/-- Text content of the `text` child of an svg (`e.svg.childNodes[1].textContent`). -/
inductive Label where
  /-- Initial text set by `addSVG`: `"loading.."`. -/
  | loading
  /-- First sample: `textContent = e.mean`, no sign. -/
  | plain (mean : Number)
  /-- Later samples: `sign + " " + e.mean.toFixed(2)`. -/
  | signed (sign : String) (mean : Number)
  deriving DecidableEq, Repr

/-- The svg element built by `addSVG`, reduced to its identity and its text. -/
structure Svg where
  node : Nat
  textContent : Label
  deriving DecidableEq, Repr

/-- An element of `arr_svg`: the object `{"svg": ..., "mean": ...}` (lines 144-147). -/
structure Slot where
  svg : Svg
  mean : Number
  deriving DecidableEq, Repr

/-- Globals of the script together with the browser state they interact with. -/
structure State where
  /-- `var timer`: `null` or the id returned by the last `setInterval`. -/
  timer : Option Nat
  /-- `var arr_svg`. -/
  arr_svg : List Slot
  /-- `var num_svg`: the slider value. -/
  num_svg : Int
  /-- `var all_done`. -/
  all_done : Nat
  /-- Number of child nodes of the element `svg_images`. -/
  svg_images : Nat
  /-- Browser: ids of the intervals that are active. -/
  intervals : List Nat
  /-- Browser: id the next `setInterval` returns. -/
  nextInterval : Nat
  /-- Browser: identity of the next svg element created. -/
  nextNode : Nat
  /-- Browser: requests sent and not yet completed, each named by the `node` of the
  object `e` its handler captured. -/
  xhttp : List Nat
  deriving DecidableEq, Repr

/-- Function `addSVG` (lines 31-69): a new svg whose text is `"loading.."`. -/
def addSVG (node : Nat) : Svg :=
  { node := node, textContent := Label.loading }

/-- Mean update of the handler (lines 97-105), applied to the captured object `e`. -/
def updateMean (e : Slot) (current_value : Number) : Slot :=
  if e.mean = Number.fin (-1) then
    { svg := { e.svg with textContent := Label.plain current_value },
      mean := current_value }
  else
    let mean := Number.half (Number.add e.mean current_value)
    let sign := if Number.gt current_value mean then ">" else "<"
    { svg := { e.svg with textContent := Label.signed sign mean },
      mean := mean }

/-- Call `timer = setInterval(update, 5000)` (line 118). -/
def setInterval (s : State) : State :=
  { s with
    timer := some s.nextInterval
    intervals := s.nextInterval :: s.intervals
    nextInterval := s.nextInterval + 1 }

/-- Statement `if( timer != null ) clearTimeout(timer);` (lines 83 and 141). The
variable `timer` keeps its value. -/
def clearTimeout (s : State) : State :=
  match s.timer with
  | none => s
  | some t => { s with intervals := s.intervals.filter (fun i => i ≠ t) }

/-- Handler `onreadystatechange` (lines 88-123) of the request whose closure captured
the object with svg `node`. With `readyState == 4` and `status == 200`, line 93 either
throws (`body = none`), which ends the handler, or yields `current_value`. -/
def onreadystatechange (s : State) (node readyState status : Nat) (body : Option Number) :
    State :=
  if readyState = 4 ∧ status = 200 then
    match body with
    | none => s
    | some current_value =>
      let s1 := { s with
        arr_svg := s.arr_svg.map
          (fun (e : Slot) => if e.svg.node = node then updateMean e current_value else e) }
      let s2 := { s1 with all_done := s1.all_done + 1 }
      if (s2.all_done : Int) = s2.num_svg then
        { setInterval s2 with all_done := 0 }
      else s2
  else s

/-- Function `update` (lines 78-132): cancel the timer, send one request per element of
`arr_svg`. -/
def update (s : State) : State :=
  let s1 := clearTimeout s
  { s1 with xhttp := s1.xhttp ++ s1.arr_svg.map (fun (e : Slot) => e.svg.node) }

/-- Objects pushed by the loop of `setup` (lines 142-148). -/
def freshSlots (first count : Nat) : List Slot :=
  (List.range count).map (fun i => { svg := addSVG (first + i), mean := Number.fin (-1) })

/-- Function `setup` (lines 140-156): cancel the timer, push `num_svg` objects with mean
`-1`, append every svg of `arr_svg` to `svg_images`, call `update`. `appendChild` moves an
svg that is already a child, so only the new svgs add to the number of children. -/
def setup (s : State) : State :=
  let s1 := clearTimeout s
  let count := s1.num_svg.toNat
  let s2 := { s1 with
    arr_svg := s1.arr_svg ++ freshSlots s1.nextNode count
    nextNode := s1.nextNode + count
    svg_images := s1.svg_images + count }
  update s2

/-- Loop of lines 180-183: one `arr_svg.pop()` per child node of `svg_images`; `pop` on an
empty array does nothing. -/
def removeAll : Nat → List Slot → List Slot
  | 0, arr => arr
  | children + 1, arr => removeAll children arr.dropLast

/-- Handler `slider.oninput` (lines 174-186) for the slider value `value`. -/
def oninput (s : State) (value : Int) : State :=
  let s1 := { s with num_svg := value }
  let s2 := { s1 with arr_svg := removeAll s1.svg_images s1.arr_svg, svg_images := 0 }
  setup s2

/-- The globals of lines 164-168 before the first call of `setup`. The slider holds
`value`; `svg_images` has `children` child nodes in the page. -/
def globals (value : Int) (children : Nat) : State :=
  { timer := none, arr_svg := [], num_svg := value, all_done := 0,
    svg_images := children, intervals := [], nextInterval := 0, nextNode := 0,
    xhttp := [] }

/-- Body of `window.onload` (lines 159-189): the globals, then `setup()`. -/
def onload (value : Int) (children : Nat) : State :=
  setup (globals value children)

/-- What the browser can deliver to the script. -/
inductive Event where
  /-- The request of object `node` reaches `readyState == 4` with `status`; `body` is
  what line 93 makes of the response text. -/
  | response (node status : Nat) (body : Option Number)
  /-- The active interval `id` fires and calls `update`. -/
  | tick (id : Nat)
  /-- The user moves the slider to `value`. -/
  | input (value : Int)
  deriving DecidableEq, Repr

/-- One event; `none` when the browser cannot deliver it in this state. -/
def step (s : State) : Event → Option State
  | Event.response node status body =>
    if node ∈ s.xhttp then
      some (onreadystatechange { s with xhttp := s.xhttp.erase node } node 4 status body)
    else none
  | Event.tick id =>
    if id ∈ s.intervals then some (update s) else none
  | Event.input value => some (oninput s value)

/-- A sequence of events. -/
def run : State → List Event → Option State
  | s, [] => some s
  | s, ev :: evs => (step s ev).bind (fun s' => run s' evs)

/-- The timer variable names an interval that is active. -/
def armed (s : State) : Bool :=
  match s.timer with
  | none => false
  | some t => decide (t ∈ s.intervals)

/-- The aggregate of a slot as the design document sees it: the stored mean `-1` stands
for "absent". -/
def aggregate (e : Slot) : Option Number :=
  if e.mean = Number.fin (-1) then none else some e.mean

/-- A completion seen by the handler (`readyState` 4): captured object, status, and what
line 93 makes of the response text. -/
structure Completion where
  node : Nat
  status : Nat
  body : Option Number
  deriving DecidableEq, Repr

/-- Handler run for a completion. -/
def settle (s : State) (c : Completion) : State :=
  onreadystatechange s c.node 4 c.status c.body

/-- The completion passes the test of line 91 and line 93 yields a number: the handler
reaches `all_done++`. -/
def Completion.counted (c : Completion) : Bool :=
  decide (c.status = 200) && c.body.isSome

/-- The event that delivers a completion. -/
def Completion.event (c : Completion) : Event :=
  Event.response c.node c.status c.body

/-- Number of counted completions in a list. -/
def successes (cs : List Completion) : Nat :=
  cs.countP Completion.counted

/-- The completions can be delivered in this order out of the outstanding requests. -/
def deliverable : List Nat → List Completion → Bool
  | _, [] => true
  | outstanding, c :: cs =>
    decide (c.node ∈ outstanding) && deliverable (outstanding.erase c.node) cs

/-- Requests left outstanding once the completions are delivered. -/
def remaining (outstanding : List Nat) (cs : List Completion) : List Nat :=
  cs.foldl (fun l c => l.erase c.node) outstanding

/-- Every child of `svg_images` accounted for: each element of `arr_svg` has its svg in
the document, as `setup` leaves it. -/
def Attached (s : State) : Prop :=
  s.arr_svg.length ≤ s.svg_images

instance (s : State) : Decidable (Attached s) := by
  unfold Attached; infer_instance

/-- Every object of `arr_svg` was created before the next node id. -/
def NodesAllocated (s : State) : Prop :=
  ∀ e ∈ s.arr_svg, e.svg.node < s.nextNode

instance (s : State) : Decidable (NodesAllocated s) := by
  unfold NodesAllocated; infer_instance

/-- The counter stays within the slot count: `0 <= all_done <= num_svg`. -/
def CounterInRange (s : State) : Prop :=
  (s.all_done : Int) ≤ s.num_svg

instance (s : State) : Decidable (CounterInRange s) := by
  unfold CounterInRange; infer_instance

/-- A slider event is guarded when its value is above the counter, or is 0 while the
counter is 0 and no request is outstanding; the other events always are. -/
def guardOk (s : State) : Event → Bool
  | Event.input value =>
    decide ((s.all_done : Int) < value) ||
      (decide (value = 0) && decide (s.all_done = 0) && s.xhttp.isEmpty)
  | _ => true

/-- Every slider event of the trace is guarded in the state where it is delivered. -/
def guarded : State → List Event → Bool
  | _, [] => true
  | s, ev :: evs =>
    guardOk s ev &&
      (match step s ev with
       | none => true
       | some s' => guarded s' evs)

/-- Invariant of guarded traces: the counter is below the slot count, or the pool is
empty with nothing sent and nothing counted. -/
def CycleInv (s : State) : Prop :=
  Attached s ∧
    ((s.all_done : Int) < s.num_svg ∨
      (s.num_svg = 0 ∧ s.all_done = 0 ∧ s.xhttp = [] ∧ s.arr_svg = []))

/-- Means stored in the pool, in order. -/
def means (s : State) : List Number :=
  s.arr_svg.map (fun (e : Slot) => e.mean)

/-- Texts shown by the pool, in order. -/
def labels (s : State) : List Label :=
  s.arr_svg.map (fun (e : Slot) => e.svg.textContent)

/-- Identities of the objects of the pool, in order. -/
def nodes (s : State) : List Nat :=
  s.arr_svg.map (fun (e : Slot) => e.svg.node)

end App

namespace App

/-! ## Facts about the numbers -/

theorem pow2_pos (e : Int) : 0 < pow2 e := by
  unfold pow2
  split <;> positivity

theorem pow2_eq_zpow (e : Int) : pow2 e = (2 : ℚ) ^ e := by
  unfold pow2
  split
  · rename_i h
    obtain ⟨n, rfl⟩ := Int.eq_ofNat_of_zero_le h
    simp
  · rename_i h
    obtain ⟨n, hn⟩ := Int.eq_ofNat_of_zero_le (show 0 ≤ -e by omega)
    have he : e = -(n : Int) := by omega
    subst he
    simp

/-- The rounded integer is within one half of the argument. -/
theorem roundHalfEven_near (q : ℚ) :
    (roundHalfEven q : ℚ) - q ≤ 1 / 2 ∧ q - (roundHalfEven q : ℚ) ≤ 1 / 2 := by
  have h1 : ((⌊q⌋ : Int) : ℚ) ≤ q := Int.floor_le q
  have h2 : q < ((⌊q⌋ : Int) : ℚ) + 1 := Int.lt_floor_add_one q
  unfold roundHalfEven
  simp only []
  split_ifs with ha hb hc
  · constructor <;> linarith
  · constructor
    · push_cast
      linarith
    · push_cast
      linarith
  · have heq : q - ((⌊q⌋ : Int) : ℚ) = 1 / 2 := le_antisymm (not_lt.mp hb) (not_lt.mp ha)
    constructor <;> linarith
  · have heq : q - ((⌊q⌋ : Int) : ℚ) = 1 / 2 := le_antisymm (not_lt.mp hb) (not_lt.mp ha)
    constructor
    · push_cast
      linarith
    · push_cast
      linarith

/-- On a tie the rounded integer is even. -/
theorem roundHalfEven_tie (q : ℚ) (h : q - ((⌊q⌋ : Int) : ℚ) = 1 / 2) :
    roundHalfEven q % 2 = 0 := by
  unfold roundHalfEven
  simp only []
  rw [h]
  simp only [lt_irrefl, if_false]
  split_ifs with hc
  · exact hc
  · omega

theorem roundHalfEven_nonneg (q : ℚ) (h : 0 ≤ q) : 0 ≤ roundHalfEven q := by
  have hf : 0 ≤ (⌊q⌋ : Int) := Int.floor_nonneg.mpr h
  unfold roundHalfEven
  simp only []
  split_ifs <;> omega

theorem round64_nonneg (q : ℚ) (h : 0 ≤ q) : (round64 q).nonneg = true := by
  have hq : ¬ q < 0 := not_lt.mpr h
  have hr : ∀ e : Int, 0 ≤ (roundHalfEven (q / pow2 e) : ℚ) * pow2 e := by
    intro e
    apply mul_nonneg
    · exact_mod_cast roundHalfEven_nonneg _ (div_nonneg h (le_of_lt (pow2_pos _)))
    · exact le_of_lt (pow2_pos _)
  unfold round64
  simp only [hq, if_false]
  split_ifs
  all_goals first
    | exact hr _
    | (simp only [Number.nonneg, decide_eq_true_eq]; exact hr _)
    | simp [Number.nonneg]

theorem Number.nonneg_add (x y : Number) (hx : x.nonneg = true) (hy : y.nonneg = true) :
    (Number.add x y).nonneg = true := by
  cases x with
  | nan => simp [Number.nonneg] at hx
  | inf s =>
    cases y with
    | nan => simp [Number.nonneg] at hy
    | inf t =>
      simp only [Number.nonneg, Bool.not_eq_true'] at hx hy
      subst hx
      subst hy
      rfl
    | fin b => exact hx
  | fin a =>
    cases y with
    | nan => simp [Number.nonneg] at hy
    | inf t => exact hy
    | fin b =>
      simp only [Number.nonneg, decide_eq_true_eq] at hx hy
      exact round64_nonneg _ (add_nonneg hx hy)

theorem Number.nonneg_half (x : Number) (hx : x.nonneg = true) :
    (Number.half x).nonneg = true := by
  cases x with
  | nan => simp [Number.nonneg] at hx
  | inf s => exact hx
  | fin a =>
    simp only [Number.nonneg, decide_eq_true_eq] at hx
    exact round64_nonneg _ (div_nonneg hx (by norm_num))

theorem Number.nonneg_ne_minusOne (x : Number) (hx : x.nonneg = true) : x ≠ Number.fin (-1) := by
  intro h
  rw [h] at hx
  simp only [Number.nonneg, decide_eq_true_eq] at hx
  norm_num at hx

theorem Number.gt_irrefl (x : Number) : Number.gt x x = false := by
  cases x with
  | nan => rfl
  | inf s => cases s <;> rfl
  | fin a => simp [Number.gt]

/-- Sample values of the rounding: 0.1 is not a binary64 value, a tie goes to the even
neighbour, the magnitude `2 ^ 1024` overflows, the smallest subnormal is `2 ^ -1074`. -/
theorem round64_samples :
    round64 (1 / 10) = Number.fin (3602879701896397 / 36028797018963968) ∧
    round64 (18014398509481983 / 9007199254740992) = Number.fin 2 ∧
    round64 (2 ^ 1024) = Number.inf false ∧
    round64 (-(2 ^ 1024)) = Number.inf true ∧
    round64 (1 / 2 ^ 1075) = Number.fin 0 ∧
    round64 (3 / 2 ^ 1075) = Number.fin (1 / 2 ^ 1073) ∧
    round64 (45 / 2) = Number.fin (45 / 2) := by
  decide!

end App

namespace App

theorem log2Fuel_spec (fuel : Nat) :
    ∀ n : Nat, 0 < n → n ≤ fuel →
      2 ^ log2Fuel fuel n ≤ n ∧ n < 2 ^ (log2Fuel fuel n + 1) := by
  induction fuel with
  | zero => intro n h0 h1; omega
  | succ fuel ih =>
    intro n h0 h1
    unfold log2Fuel
    split
    · constructor
      · simpa using h0
      · simpa using (by omega : n < 2)
    · obtain ⟨h2, h3⟩ := ih (n / 2) (by omega) (by omega)
      rw [pow_succ, pow_succ]
      rw [pow_succ] at h3
      constructor <;> omega

theorem log2_spec (n : Nat) (h : 0 < n) : 2 ^ log2 n ≤ n ∧ n < 2 ^ (log2 n + 1) :=
  log2Fuel_spec n n h (le_refl n)

/-- The exponent found by `floorLog2` is the one of the binade of `q`. -/
theorem floorLog2_spec (q : ℚ) (hq : 0 < q) :
    pow2 (floorLog2 q) ≤ q ∧ q < pow2 (floorLog2 q + 1) := by
  have hnum : 0 < q.num := Rat.num_pos.mpr hq
  have hn0 : 0 < q.num.natAbs := Int.natAbs_pos.mpr (ne_of_gt hnum)
  obtain ⟨hn1, hn2⟩ := log2_spec q.num.natAbs hn0
  obtain ⟨hd1, hd2⟩ := log2_spec q.den q.den_pos
  have hqe : (q.num.natAbs : ℚ) / (q.den : ℚ) = q := by
    have h1 : ((q.num.natAbs : Nat) : Int) = q.num := Int.natAbs_of_nonneg (le_of_lt hnum)
    have h2 : ((q.num.natAbs : Nat) : ℚ) = (q.num : ℚ) := by
      rw [← Int.cast_natCast, h1]
    rw [h2]
    exact Rat.num_div_den q
  have hn1' : (2 : ℚ) ^ log2 q.num.natAbs ≤ (q.num.natAbs : ℚ) := by exact_mod_cast hn1
  have hn2' : (q.num.natAbs : ℚ) < (2 : ℚ) ^ (log2 q.num.natAbs + 1) := by exact_mod_cast hn2
  have hd1' : (2 : ℚ) ^ log2 q.den ≤ (q.den : ℚ) := by exact_mod_cast hd1
  have hd2' : (q.den : ℚ) < (2 : ℚ) ^ (log2 q.den + 1) := by exact_mod_cast hd2
  have hdpos : (0 : ℚ) < (q.den : ℚ) := by exact_mod_cast q.den_pos
  have hk : (0 : ℚ) < (2 : ℚ) ^ log2 q.num.natAbs := by positivity
  have hl : (0 : ℚ) < (2 : ℚ) ^ log2 q.den := by positivity
  have two : (2 : ℚ) ≠ 0 := by norm_num
  have ha : ∀ c : Int, pow2 ((log2 q.num.natAbs : Int) - (log2 q.den : Int) + c) =
      (2 : ℚ) ^ log2 q.num.natAbs / (2 : ℚ) ^ log2 q.den * (2 : ℚ) ^ c := by
    intro c
    rw [pow2_eq_zpow, zpow_add₀ two, zpow_sub₀ two, zpow_natCast, zpow_natCast]
  have ha0 := ha 0
  have ha1 := ha 1
  have ham := ha (-1)
  simp only [add_zero, zpow_zero, mul_one] at ha0
  simp only [zpow_one] at ha1
  rw [show ((log2 q.num.natAbs : Int) - (log2 q.den : Int) + -1) =
    (log2 q.num.natAbs : Int) - (log2 q.den : Int) - 1 by ring] at ham
  have hlow : (2 : ℚ) ^ log2 q.num.natAbs / (2 : ℚ) ^ log2 q.den * (2 : ℚ) ^ (-1 : Int) ≤
      (q.num.natAbs : ℚ) / (q.den : ℚ) := by
    rw [zpow_neg, zpow_one, div_mul_eq_mul_div, div_le_div_iff hl hdpos]
    rw [pow_succ] at hd2'
    have : (2 : ℚ) ^ log2 q.num.natAbs * 2⁻¹ * (q.den : ℚ) ≤
        (2 : ℚ) ^ log2 q.num.natAbs * 2⁻¹ * ((2 : ℚ) ^ log2 q.den * 2) :=
      mul_le_mul_of_nonneg_left (le_of_lt hd2') (by positivity)
    calc (2 : ℚ) ^ log2 q.num.natAbs * 2⁻¹ * (q.den : ℚ)
        ≤ (2 : ℚ) ^ log2 q.num.natAbs * 2⁻¹ * ((2 : ℚ) ^ log2 q.den * 2) := this
      _ = (2 : ℚ) ^ log2 q.num.natAbs * (2 : ℚ) ^ log2 q.den := by
        field_simp
        ring
      _ ≤ (q.num.natAbs : ℚ) * (2 : ℚ) ^ log2 q.den :=
        mul_le_mul_of_nonneg_right hn1' (le_of_lt hl)
  have hhigh : (q.num.natAbs : ℚ) / (q.den : ℚ) <
      (2 : ℚ) ^ log2 q.num.natAbs / (2 : ℚ) ^ log2 q.den * 2 := by
    rw [div_mul_eq_mul_div, div_lt_div_iff hdpos hl]
    rw [pow_succ] at hn2'
    calc (q.num.natAbs : ℚ) * (2 : ℚ) ^ log2 q.den
        < (2 : ℚ) ^ log2 q.num.natAbs * 2 * (2 : ℚ) ^ log2 q.den :=
          mul_lt_mul_of_pos_right hn2' hl
      _ ≤ (2 : ℚ) ^ log2 q.num.natAbs * 2 * (q.den : ℚ) :=
          mul_le_mul_of_nonneg_left hd1' (by positivity)
  unfold floorLog2
  simp only []
  split
  · rename_i hlt
    refine ⟨?_, ?_⟩
    · rw [ham]
      exact hlow.trans (le_of_eq hqe)
    · rw [sub_add_cancel]
      exact hlt
  · rename_i hge
    refine ⟨not_lt.mp hge, ?_⟩
    rw [ha1]
    exact lt_of_eq_of_lt hqe.symm hhigh

/-- A finite result of `round64` is within half a unit in the last place of the exact
value. -/
theorem round64_near (q r : ℚ) (h : round64 q = Number.fin r) :
    ∃ e : Int, -1022 ≤ e ∧ r - q ≤ pow2 (e - 52) / 2 ∧ q - r ≤ pow2 (e - 52) / 2 := by
  unfold round64 at h
  split at h
  · rename_i h0
    have hr : r = 0 := (Number.fin.inj h).symm
    have hu : 0 ≤ pow2 (0 - 52) / 2 := le_of_lt (div_pos (pow2_pos _) (by norm_num))
    refine ⟨0, by norm_num, ?_, ?_⟩
    · rw [hr, h0, sub_self]
      exact hu
    · rw [hr, h0, sub_self]
      exact hu
  · simp only [] at h
    split at h
    · cases h
    · have hr := (Number.fin.inj h).symm
      have hu := pow2_pos (max (floorLog2 (magnitude q)) (-1022) - 52)
      obtain ⟨h1, h2⟩ := roundHalfEven_near
        (q / pow2 (max (floorLog2 (magnitude q)) (-1022) - 52))
      have e1 := mul_le_mul_of_nonneg_right h1 (le_of_lt hu)
      have e2 := mul_le_mul_of_nonneg_right h2 (le_of_lt hu)
      rw [sub_mul, div_mul_cancel₀ _ (ne_of_gt hu)] at e1 e2
      refine ⟨max (floorLog2 (magnitude q)) (-1022), le_max_right _ _, ?_, ?_⟩
      · rw [hr]
        linarith
      · rw [hr]
        linarith

end App

namespace App

/-! ## The mean update -/

theorem updateMean_of_absent (e : Slot) (x : Number) (h : e.mean = Number.fin (-1)) :
    updateMean e x = { svg := { e.svg with textContent := Label.plain x }, mean := x } := by
  simp [updateMean, h]

theorem updateMean_of_present (e : Slot) (x : Number) (h : e.mean ≠ Number.fin (-1)) :
    updateMean e x =
      { svg := { e.svg with
          textContent :=
            Label.signed
              (if Number.gt x (Number.half (Number.add e.mean x)) then ">" else "<")
              (Number.half (Number.add e.mean x)) },
        mean := Number.half (Number.add e.mean x) } := by
  simp [updateMean, h]

theorem aggregate_eq_none (e : Slot) : aggregate e = none ↔ e.mean = Number.fin (-1) := by
  unfold aggregate
  split <;> simp_all

theorem aggregate_eq_some (e : Slot) (v : Number) :
    aggregate e = some v ↔ e.mean = v ∧ v ≠ Number.fin (-1) := by
  unfold aggregate
  split
  · rename_i h
    constructor
    · intro h'
      cases h'
    · rintro ⟨h1, h2⟩
      exact absurd (h1 ▸ h) h2
  · rename_i h
    constructor
    · intro h'
      have hv : e.mean = v := Option.some.inj h'
      exact ⟨hv, hv ▸ h⟩
    · rintro ⟨h1, _⟩
      rw [h1]

theorem updateMean_node (e : Slot) (x : Number) : (updateMean e x).svg.node = e.svg.node := by
  unfold updateMean
  split <;> rfl

theorem updateMean_nonneg (e : Slot) (x : Number) (he : e.mean.nonneg = true)
    (hx : x.nonneg = true) : (updateMean e x).mean.nonneg = true := by
  rw [updateMean_of_present e x (Number.nonneg_ne_minusOne _ he)]
  exact Number.nonneg_half _ (Number.nonneg_add _ _ he hx)

theorem foldl_updateMean_nonneg (xs : List Number) :
    ∀ e : Slot, e.mean.nonneg = true → (∀ x ∈ xs, x.nonneg = true) →
      (xs.foldl updateMean e).mean.nonneg = true := by
  induction xs with
  | nil => intro e he _; exact he
  | cons x xs ih =>
    intro e he hx
    rw [List.foldl_cons]
    apply ih
    · exact updateMean_nonneg e x he (hx x (List.mem_cons_self x xs))
    · intro y hy
      exact hx y (List.mem_cons_of_mem x hy)

/-- The sum of line 102 is rounded: folding 1 into a slot that holds `1 - 2 ^ -53` stores
1, where the exact mean is `1 - 2 ^ -54`. -/
theorem updateMean_rounds :
    (updateMean { svg := addSVG 0, mean := Number.fin (9007199254740991 / 9007199254740992) }
      (Number.fin 1)).mean = Number.fin 1 := by
  decide!

/-! ## C1, C4, C10: the fold rule, the sign and the sentinel -/

/-- C1. Folding a sample into a slot whose aggregate is absent stores exactly the sample;
folding it into a slot whose aggregate is present with value `v` stores exactly
`(v + sample) / 2`, the sum and the quotient being those of JavaScript numbers, which is
the exact rational mean whenever the sum and its half are binary64 values; the handler
applies this update to the captured object and to no other; the samples 10, 20, 30
folded into a fresh slot give 10, then 15, then 22.5. -/
theorem fold_rule (e : Slot) (sample : Number) :
    (aggregate e = none → (updateMean e sample).mean = sample) ∧
    (∀ v, aggregate e = some v →
      (updateMean e sample).mean = Number.half (Number.add v sample)) ∧
    (∀ a b : ℚ, aggregate e = some (Number.fin a) → sample = Number.fin b →
      round64 (a + b) = Number.fin (a + b) →
      round64 ((a + b) / 2) = Number.fin ((a + b) / 2) →
      (updateMean e sample).mean = Number.fin ((a + b) / 2)) ∧
    (∀ (s : State) (node : Nat),
      (onreadystatechange s node 4 200 (some sample)).arr_svg =
        s.arr_svg.map (fun (e : Slot) => if e.svg.node = node then updateMean e sample else e)) ∧
    ((List.scanl updateMean { svg := addSVG 0, mean := Number.fin (-1) }
        [Number.fin 10, Number.fin 20, Number.fin 30]).map (fun (e : Slot) => e.mean) =
      [Number.fin (-1), Number.fin 10, Number.fin 15, Number.fin (45 / 2)]) := by
  refine ⟨?_, ?_, ?_, ?_, ?_⟩
  · intro h
    rw [updateMean_of_absent e sample ((aggregate_eq_none e).mp h)]
  · intro v h
    obtain ⟨h1, h2⟩ := (aggregate_eq_some e v).mp h
    rw [updateMean_of_present e sample (h1 ▸ h2), h1]
  · intro a b h hb h1 h2
    obtain ⟨h3, h4⟩ := (aggregate_eq_some e _).mp h
    rw [updateMean_of_present e sample (h3 ▸ h4), h3, hb]
    show Number.half (Number.add (Number.fin a) (Number.fin b)) = _
    rw [show Number.add (Number.fin a) (Number.fin b) = round64 (a + b) from rfl, h1]
    exact h2
  · intro s node
    unfold onreadystatechange
    simp only [and_self, if_true]
    split <;> rfl
  · decide!

/-- Witness for C1 at a slot holding 10 and the sample 20. -/
theorem fold_rule_witness :
    aggregate { svg := addSVG 0, mean := Number.fin 10 } = some (Number.fin 10) ∧
    (updateMean { svg := addSVG 0, mean := Number.fin 10 } (Number.fin 20)).mean =
      Number.half (Number.add (Number.fin 10) (Number.fin 20)) :=
  ⟨by decide!,
    (fold_rule { svg := addSVG 0, mean := Number.fin 10 } (Number.fin 20)).2.1
      (Number.fin 10) (by decide!)⟩

/-- C4. On the first fold (aggregate absent) the text is the sample without a sign; on
every later fold the text carries the new mean and the sign `>` when the sample is
strictly greater than the new mean, `<` otherwise, equality included. Two slots given
10 and 10 show 10 without sign; after 5 and 20 they show 7.5 with `<` and 15 with `>`. -/
theorem comparison_sign (e : Slot) (sample : Number) :
    (aggregate e = none → (updateMean e sample).svg.textContent = Label.plain sample) ∧
    (∀ v, aggregate e = some v →
      (updateMean e sample).svg.textContent =
        Label.signed (if Number.gt sample (updateMean e sample).mean then ">" else "<")
          (updateMean e sample).mean) ∧
    (∀ v, aggregate e = some v → sample = (updateMean e sample).mean →
      (updateMean e sample).svg.textContent = Label.signed "<" sample) ∧
    ((run (onload 2 0) [Event.response 0 200 (some (Number.fin 10)),
        Event.response 1 200 (some (Number.fin 10))]).map labels =
      some [Label.plain (Number.fin 10), Label.plain (Number.fin 10)]) ∧
    ((run (onload 2 0) [Event.response 0 200 (some (Number.fin 10)),
        Event.response 1 200 (some (Number.fin 10)), Event.tick 0,
        Event.response 0 200 (some (Number.fin 5)),
        Event.response 1 200 (some (Number.fin 20))]).map labels =
      some [Label.signed "<" (Number.fin (15 / 2)), Label.signed ">" (Number.fin 15)]) := by
  refine ⟨?_, ?_, ?_, ?_, ?_⟩
  · intro h
    rw [updateMean_of_absent e sample ((aggregate_eq_none e).mp h)]
  · intro v h
    obtain ⟨h1, h2⟩ := (aggregate_eq_some e v).mp h
    rw [updateMean_of_present e sample (h1 ▸ h2)]
  · intro v h heq
    obtain ⟨h1, h2⟩ := (aggregate_eq_some e v).mp h
    rw [updateMean_of_present e sample (h1 ▸ h2)] at heq ⊢
    have heq' : sample = Number.half (Number.add e.mean sample) := heq
    have hlt : Number.gt sample (Number.half (Number.add e.mean sample)) = false := by
      rw [← heq']
      exact Number.gt_irrefl sample
    simp only [hlt, Bool.false_eq_true, if_false]
    rw [← heq']
  · decide!
  · decide!

/-- Witness for C4: folding 20 into a slot holding 10 shows 15 with the sign `>`. -/
theorem comparison_sign_witness :
    aggregate { svg := addSVG 0, mean := Number.fin 10 } = some (Number.fin 10) ∧
    (updateMean { svg := addSVG 0, mean := Number.fin 10 } (Number.fin 20)).svg.textContent =
      Label.signed
        (if Number.gt (Number.fin 20)
            (updateMean { svg := addSVG 0, mean := Number.fin 10 } (Number.fin 20)).mean
          then ">" else "<")
        (updateMean { svg := addSVG 0, mean := Number.fin 10 } (Number.fin 20)).mean :=
  ⟨by decide!,
    (comparison_sign { svg := addSVG 0, mean := Number.fin 10 } (Number.fin 20)).2.1
      (Number.fin 10) (by decide!)⟩

/-- C10. Samples that are all non-negative, folded in order into a fresh slot (stored
mean `-1`): after every fold the stored mean is non-negative, so the stored mean equals
the sentinel `-1` exactly before the first fold; the first-sample branch is taken by the
first fold and by no later one. -/
theorem sentinel_safety (node : Nat) (xs : List Number) (hpos : ∀ x ∈ xs, x.nonneg = true)
    (k : Nat) (hk : k ≤ xs.length) :
    (0 < k →
      ((xs.take k).foldl updateMean
        { svg := addSVG node, mean := Number.fin (-1) }).mean.nonneg = true) ∧
    (((xs.take k).foldl updateMean
        { svg := addSVG node, mean := Number.fin (-1) }).mean = Number.fin (-1) ↔ k = 0) := by
  have key : 0 < k →
      ((xs.take k).foldl updateMean
        { svg := addSVG node, mean := Number.fin (-1) }).mean.nonneg = true := by
    intro hk0
    cases xs with
    | nil =>
      simp at hk
      omega
    | cons x xs =>
      obtain ⟨j, rfl⟩ : ∃ j, k = j + 1 := ⟨k - 1, by omega⟩
      rw [List.take_succ_cons, List.foldl_cons]
      apply foldl_updateMean_nonneg
      · rw [updateMean_of_absent _ x rfl]
        exact hpos x (List.mem_cons_self x xs)
      · intro y hy
        exact hpos y (List.mem_cons_of_mem x (List.mem_of_mem_take hy))
  refine ⟨key, ?_, ?_⟩
  · intro h
    by_contra hne
    exact Number.nonneg_ne_minusOne _ (key (Nat.pos_of_ne_zero hne)) h
  · intro h
    subst h
    rfl

/-- Witness for C10 on the samples 0, 65535, 3 after two folds. -/
theorem sentinel_safety_witness :
    (∀ x ∈ [Number.fin 0, Number.fin 65535, Number.fin 3], x.nonneg = true) ∧
    2 ≤ [Number.fin 0, Number.fin 65535, Number.fin 3].length ∧
    ((0 < 2 →
        (([Number.fin 0, Number.fin 65535, Number.fin 3].take 2).foldl updateMean
          { svg := addSVG 0, mean := Number.fin (-1) }).mean.nonneg = true) ∧
      ((([Number.fin 0, Number.fin 65535, Number.fin 3].take 2).foldl updateMean
          { svg := addSVG 0, mean := Number.fin (-1) }).mean = Number.fin (-1) ↔ 2 = 0)) :=
  ⟨by decide!, by decide,
    sentinel_safety 0 [Number.fin 0, Number.fin 65535, Number.fin 3] (by decide!) 2
      (by decide)⟩

end App

namespace App

/-! ## The handler and the completion counter -/

theorem counted_iff (c : Completion) :
    c.counted = true ↔ c.status = 200 ∧ ∃ x, c.body = some x := by
  unfold Completion.counted
  rw [Bool.and_eq_true, decide_eq_true_eq, Option.isSome_iff_exists]

theorem settle_failure (s : State) (c : Completion) (h : c.counted = false) :
    settle s c = s := by
  unfold settle onreadystatechange
  by_cases hs : c.status = 200
  · cases hb : c.body with
    | none => simp [hs]
    | some x =>
      have : c.counted = true := (counted_iff c).mpr ⟨hs, x, hb⟩
      rw [h] at this
      cases this
  · simp [hs]

theorem settle_below (s : State) (c : Completion) (x : Number) (hs : c.status = 200)
    (hb : c.body = some x) (hne : ((s.all_done + 1 : Nat) : Int) ≠ s.num_svg) :
    settle s c =
      { s with
        arr_svg := s.arr_svg.map
          (fun (e : Slot) => if e.svg.node = c.node then updateMean e x else e)
        all_done := s.all_done + 1 } := by
  simp only [settle, onreadystatechange, hs, hb, and_self, if_true]
  rw [if_neg hne]

theorem settle_reach (s : State) (c : Completion) (x : Number) (hs : c.status = 200)
    (hb : c.body = some x) (heq : ((s.all_done + 1 : Nat) : Int) = s.num_svg) :
    settle s c =
      { s with
        arr_svg := s.arr_svg.map
          (fun (e : Slot) => if e.svg.node = c.node then updateMean e x else e)
        all_done := 0
        timer := some s.nextInterval
        intervals := s.nextInterval :: s.intervals
        nextInterval := s.nextInterval + 1 } := by
  simp only [settle, onreadystatechange, hs, hb, and_self, if_true]
  rw [if_pos heq]
  rfl

theorem successes_cons (c : Completion) (cs : List Completion) :
    successes (c :: cs) = successes cs + (if c.counted = true then 1 else 0) := by
  unfold successes
  rw [List.countP_cons]

theorem successes_le_length (cs : List Completion) : successes cs ≤ cs.length :=
  List.countP_le_length _

theorem successes_eq_length (cs : List Completion) :
    successes cs = cs.length ↔ ∀ c ∈ cs, c.counted = true := by
  unfold successes
  rw [List.countP_eq_length]

/-- While the counted completions do not bring the counter up to `num_svg`, no interval
is created: the counter only grows by their number. -/
theorem foldl_settle_below (cs : List Completion) :
    ∀ s : State, ((s.all_done + successes cs : Nat) : Int) < s.num_svg →
      (cs.foldl settle s).timer = s.timer ∧
      (cs.foldl settle s).intervals = s.intervals ∧
      (cs.foldl settle s).nextInterval = s.nextInterval ∧
      (cs.foldl settle s).num_svg = s.num_svg ∧
      (cs.foldl settle s).all_done = s.all_done + successes cs := by
  induction cs with
  | nil => intro s _; simp [successes]
  | cons c cs ih =>
    intro s hlt
    rw [List.foldl_cons]
    rw [successes_cons] at hlt ⊢
    cases h : c.counted with
    | true =>
      obtain ⟨hs, x, hb⟩ := (counted_iff c).mp h
      simp only [h, if_true] at hlt ⊢
      have hne : ((s.all_done + 1 : Nat) : Int) ≠ s.num_svg := by
        intro heq
        rw [← heq] at hlt
        have : s.all_done + (successes cs + 1) < s.all_done + 1 := by exact_mod_cast hlt
        omega
      have hst := settle_below s c x hs hb hne
      have e1 : (settle s c).all_done = s.all_done + 1 := by rw [hst]
      have e2 : (settle s c).num_svg = s.num_svg := by rw [hst]
      have e3 : (settle s c).timer = s.timer := by rw [hst]
      have e4 : (settle s c).intervals = s.intervals := by rw [hst]
      have e5 : (settle s c).nextInterval = s.nextInterval := by rw [hst]
      have hlt' : (((settle s c).all_done + successes cs : Nat) : Int) <
          (settle s c).num_svg := by
        rw [e1, e2]
        have : s.all_done + 1 + successes cs = s.all_done + (successes cs + 1) := by omega
        rw [this]
        exact hlt
      obtain ⟨h1, h2, h3, h4, h5⟩ := ih (settle s c) hlt'
      refine ⟨h1.trans e3, h2.trans e4, h3.trans e5, h4.trans e2, ?_⟩
      rw [h5, e1]
      omega
    | false =>
      simp only [h, Bool.false_eq_true, if_false, Nat.add_zero] at hlt ⊢
      rw [settle_failure s c h]
      exact ih s hlt

/-- When every completion is counted and their number brings the counter exactly up to
`num_svg`, the last one creates the interval and resets the counter. -/
theorem foldl_settle_reach (cs : List Completion) :
    ∀ s : State, cs ≠ [] → (∀ c ∈ cs, c.counted = true) →
      ((s.all_done + cs.length : Nat) : Int) = s.num_svg →
      (cs.foldl settle s).timer = some s.nextInterval ∧
      (cs.foldl settle s).intervals = s.nextInterval :: s.intervals ∧
      (cs.foldl settle s).nextInterval = s.nextInterval + 1 ∧
      (cs.foldl settle s).all_done = 0 := by
  induction cs with
  | nil => intro s h; exact absurd rfl h
  | cons c cs ih =>
    intro s _ hall hlen
    rw [List.foldl_cons]
    obtain ⟨hs, x, hb⟩ := (counted_iff c).mp (hall c (List.mem_cons_self c cs))
    by_cases hcs : cs = []
    · subst hcs
      have heq : ((s.all_done + 1 : Nat) : Int) = s.num_svg := by simpa using hlen
      rw [settle_reach s c x hs hb heq]
      simp
    · have hpos : 0 < cs.length := List.length_pos.mpr hcs
      have hne : ((s.all_done + 1 : Nat) : Int) ≠ s.num_svg := by
        intro heq
        rw [← heq] at hlen
        have : s.all_done + (cs.length + 1) = s.all_done + 1 := by
          have h' := hlen
          simp only [List.length_cons] at h'
          exact_mod_cast h'
        omega
      have hst := settle_below s c x hs hb hne
      have e1 : (settle s c).all_done = s.all_done + 1 := by rw [hst]
      have e2 : (settle s c).num_svg = s.num_svg := by rw [hst]
      have e4 : (settle s c).intervals = s.intervals := by rw [hst]
      have e5 : (settle s c).nextInterval = s.nextInterval := by rw [hst]
      have hlen' : (((settle s c).all_done + cs.length : Nat) : Int) =
          (settle s c).num_svg := by
        rw [e1, e2, ← hlen]
        simp only [List.length_cons]
        push_cast
        ring
      have := ih (settle s c) hcs (fun d hd => hall d (List.mem_cons_of_mem c hd)) hlen'
      rw [e4, e5] at this
      exact this

theorem armed_congr (s t : State) (h1 : t.timer = s.timer) (h2 : t.intervals = s.intervals) :
    armed t = armed s := by
  unfold armed
  rw [h1, h2]

theorem armed_of_fresh (s : State) (t : Nat) (l : List Nat) (h1 : s.timer = some t)
    (h2 : s.intervals = t :: l) : armed s = true := by
  unfold armed
  rw [h1, h2]
  simp

theorem armed_clearTimeout (s : State) : armed (clearTimeout s) = false := by
  unfold clearTimeout armed
  cases h : s.timer with
  | none => simp [h]
  | some t => simp [h]

theorem armed_update (s : State) : armed (update s) = false := by
  have h := armed_clearTimeout s
  rw [← h]
  exact armed_congr _ _ rfl rfl

/-! ## Delivery of completions by the browser -/

theorem settle_xhttp (s : State) (c : Completion) (l : List Nat) :
    settle { s with xhttp := l } c = { settle s c with xhttp := l } := by
  cases h : c.counted with
  | false => rw [settle_failure _ c h, settle_failure _ c h]
  | true =>
    obtain ⟨hs, x, hb⟩ := (counted_iff c).mp h
    by_cases heq : ((s.all_done + 1 : Nat) : Int) = s.num_svg
    · rw [settle_reach s c x hs hb heq]
      exact settle_reach { s with xhttp := l } c x hs hb heq
    · rw [settle_below s c x hs hb heq]
      exact settle_below { s with xhttp := l } c x hs hb heq

theorem foldl_settle_xhttp (cs : List Completion) :
    ∀ (s : State) (l : List Nat),
      cs.foldl settle { s with xhttp := l } = { cs.foldl settle s with xhttp := l } := by
  induction cs with
  | nil => intro s l; rfl
  | cons c cs ih =>
    intro s l
    rw [List.foldl_cons, List.foldl_cons, settle_xhttp, ih]

theorem step_event (s : State) (c : Completion) (h : c.node ∈ s.xhttp) :
    step s c.event = some { settle s c with xhttp := s.xhttp.erase c.node } := by
  unfold Completion.event
  simp only [step, h, if_true]
  rw [← settle_xhttp]
  rfl

/-- Completions that can be delivered in their order are delivered: the run exists, the
globals are those the handlers leave one after the other. -/
theorem run_deliverable (cs : List Completion) :
    ∀ s : State, deliverable s.xhttp cs = true →
      run s (cs.map Completion.event) =
        some { cs.foldl settle s with xhttp := remaining s.xhttp cs } := by
  induction cs with
  | nil => intro s _; rfl
  | cons c cs ih =>
    intro s hd
    simp only [deliverable, Bool.and_eq_true, decide_eq_true_eq] at hd
    obtain ⟨hmem, hrest⟩ := hd
    rw [List.map_cons, run, step_event s c hmem, Option.some_bind]
    rw [ih _ hrest]
    rw [List.foldl_cons, foldl_settle_xhttp]
    rfl

theorem deliverable_of_perm (cs : List Completion) :
    ∀ l : List Nat, (cs.map Completion.node).Perm l →
      deliverable l cs = true ∧ remaining l cs = [] := by
  induction cs with
  | nil =>
    intro l h
    exact ⟨rfl, (List.Perm.nil_eq h).symm⟩
  | cons c cs ih =>
    intro l h
    rw [List.map_cons] at h
    obtain ⟨hmem, hrest⟩ := List.cons_perm_iff_perm_erase.mp h
    obtain ⟨h1, h2⟩ := ih _ hrest
    constructor
    · simp only [deliverable, Bool.and_eq_true, decide_eq_true_eq]
      exact ⟨hmem, h1⟩
    · exact h2

theorem deliverable_take (cs : List Completion) :
    ∀ (l : List Nat) (k : Nat), deliverable l cs = true → deliverable l (cs.take k) = true := by
  induction cs with
  | nil => intro l k _; simp [deliverable]
  | cons c cs ih =>
    intro l k h
    cases k with
    | zero => rfl
    | succ k =>
      simp only [deliverable, Bool.and_eq_true, decide_eq_true_eq] at h
      rw [List.take_succ_cons]
      simp only [deliverable, Bool.and_eq_true, decide_eq_true_eq]
      exact ⟨h.1, ih _ k h.2⟩

end App

namespace App

/-! ## The slider handler -/

theorem removeAll_eq_nil (children : Nat) :
    ∀ arr : List Slot, arr.length ≤ children → removeAll children arr = [] := by
  induction children with
  | zero =>
    intro arr h
    have : arr.length = 0 := Nat.le_zero.mp h
    simpa [removeAll] using this
  | succ k ih =>
    intro arr h
    rw [removeAll]
    apply ih
    rw [List.length_dropLast]
    omega

theorem freshSlots_length (first count : Nat) : (freshSlots first count).length = count := by
  simp [freshSlots]

theorem mem_freshSlots (first count : Nat) (e : Slot) (h : e ∈ freshSlots first count) :
    e.mean = Number.fin (-1) ∧ e.svg.textContent = Label.loading ∧ first ≤ e.svg.node ∧
      e.svg.node < first + count := by
  simp only [freshSlots, List.mem_map, List.mem_range] at h
  obtain ⟨i, hi, rfl⟩ := h
  refine ⟨rfl, rfl, ?_, ?_⟩
  · show first ≤ first + i
    omega
  · show first + i < first + count
    omega

theorem clearTimeout_fields (s : State) :
    (clearTimeout s).timer = s.timer ∧ (clearTimeout s).arr_svg = s.arr_svg ∧
    (clearTimeout s).num_svg = s.num_svg ∧ (clearTimeout s).all_done = s.all_done ∧
    (clearTimeout s).svg_images = s.svg_images ∧
    (clearTimeout s).nextInterval = s.nextInterval ∧
    (clearTimeout s).nextNode = s.nextNode ∧ (clearTimeout s).xhttp = s.xhttp := by
  unfold clearTimeout
  split <;> simp

theorem update_fields (s : State) :
    (update s).timer = s.timer ∧ (update s).arr_svg = s.arr_svg ∧
    (update s).num_svg = s.num_svg ∧ (update s).all_done = s.all_done ∧
    (update s).svg_images = s.svg_images ∧ (update s).nextInterval = s.nextInterval ∧
    (update s).nextNode = s.nextNode ∧
    (update s).xhttp = s.xhttp ++ s.arr_svg.map (fun (e : Slot) => e.svg.node) := by
  obtain ⟨h1, h2, h3, h4, h5, h6, h7, h8⟩ := clearTimeout_fields s
  refine ⟨h1, h2, h3, h4, h5, h6, h7, ?_⟩
  show (clearTimeout s).xhttp ++ (clearTimeout s).arr_svg.map (fun (e : Slot) => e.svg.node) = _
  rw [h8, h2]

theorem setup_fields (s : State) :
    (setup s).arr_svg = s.arr_svg ++ freshSlots s.nextNode s.num_svg.toNat ∧
    (setup s).num_svg = s.num_svg ∧ (setup s).all_done = s.all_done ∧
    (setup s).svg_images = s.svg_images + s.num_svg.toNat ∧
    (setup s).nextNode = s.nextNode + s.num_svg.toNat ∧
    (setup s).xhttp = s.xhttp ++
      (s.arr_svg ++ freshSlots s.nextNode s.num_svg.toNat).map (fun (e : Slot) => e.svg.node) ∧
    armed (setup s) = false := by
  obtain ⟨_, h2, h3, h4, h5, _, h7, h8⟩ := clearTimeout_fields s
  unfold setup
  simp only []
  refine ⟨?_, ?_, ?_, ?_, ?_, ?_, armed_update _⟩
  · rw [(update_fields _).2.1, h2, h7, h3]
  · rw [(update_fields _).2.2.1, h3]
  · rw [(update_fields _).2.2.2.1, h4]
  · rw [(update_fields _).2.2.2.2.1, h5, h3]
  · rw [(update_fields _).2.2.2.2.2.2.1, h7, h3]
  · rw [(update_fields _).2.2.2.2.2.2.2, h8, h2, h7, h3]

theorem oninput_fields (s : State) (value : Int) :
    (oninput s value).arr_svg =
      removeAll s.svg_images s.arr_svg ++ freshSlots s.nextNode value.toNat ∧
    (oninput s value).num_svg = value ∧ (oninput s value).all_done = s.all_done ∧
    (oninput s value).svg_images = value.toNat ∧
    (oninput s value).nextNode = s.nextNode + value.toNat ∧
    (oninput s value).xhttp = s.xhttp ++
      (removeAll s.svg_images s.arr_svg ++ freshSlots s.nextNode value.toNat).map
        (fun (e : Slot) => e.svg.node) ∧
    armed (oninput s value) = false := by
  unfold oninput
  simp only []
  obtain ⟨h1, h2, h3, h4, h5, h6, h7⟩ := setup_fields
    { s with num_svg := value, arr_svg := removeAll s.svg_images s.arr_svg, svg_images := 0 }
  refine ⟨h1, h2, h3, ?_, h5, h6, h7⟩
  rw [h4]
  simp

theorem oninput_arr_svg (s : State) (value : Int) (hA : Attached s) :
    (oninput s value).arr_svg = freshSlots s.nextNode value.toNat := by
  rw [(oninput_fields s value).1, removeAll_eq_nil _ _ hA, List.nil_append]

theorem map_updateMean_stale (arr : List Slot) (node : Nat) (data : Number)
    (h : ∀ e ∈ arr, e.svg.node ≠ node) :
    arr.map (fun (e : Slot) => if e.svg.node = node then updateMean e data else e) = arr := by
  induction arr with
  | nil => rfl
  | cons e arr ih =>
    rw [List.map_cons, if_neg (h e (List.mem_cons_self e arr)),
      ih (fun d hd => h d (List.mem_cons_of_mem e hd))]

end App

namespace App

/-! ## C2, C3, C5: the completion barrier -/

theorem update_idle (s0 : State) (hidle : s0.xhttp = []) : (update s0).xhttp = nodes s0 := by
  rw [(update_fields s0).2.2.2.2.2.2.2, hidle]
  rfl

/-- The barrier when nothing else is outstanding: a cycle started by `update` with the
counter at zero, `num_svg` equal to the number of slots and no request of an earlier
cycle outstanding; its completions arrive in any order with any outcome. After fewer than
all of them the timer is not armed. -/
theorem barrier_own_requests (s0 : State) (cs : List Completion) (k : Nat)
    (hnum : s0.num_svg = (s0.arr_svg.length : Int)) (hzero : s0.all_done = 0)
    (hidle : s0.xhttp = []) (hperm : (cs.map Completion.node).Perm (nodes s0))
    (hk : k < s0.arr_svg.length) :
    ∃ s', run (update s0) ((cs.take k).map Completion.event) = some s' ∧
      armed s' = false ∧ s'.intervals = (update s0).intervals := by
  have hx : (cs.map Completion.node).Perm (update s0).xhttp := by
    rw [update_idle s0 hidle]
    exact hperm
  have hd := deliverable_take cs _ k (deliverable_of_perm cs _ hx).1
  obtain ⟨_, _, h3, h4, _, _, _, _⟩ := update_fields s0
  have hle : successes (cs.take k) ≤ k :=
    le_trans (successes_le_length _) (List.length_take_le k cs)
  have hlt : (((update s0).all_done + successes (cs.take k) : Nat) : Int) <
      (update s0).num_svg := by
    rw [h4, h3, hzero, hnum]
    have : 0 + successes (cs.take k) < s0.arr_svg.length := by omega
    exact_mod_cast this
  obtain ⟨h1, h2, _, _, _⟩ := foldl_settle_below (cs.take k) (update s0) hlt
  refine ⟨_, run_deliverable (cs.take k) (update s0) hd, ?_, h2⟩
  rw [← armed_update s0]
  exact armed_congr _ _ h1 h2

/-- C2 fails on the code. Two slots in flight, slider moved to 1: a cycle is started with
the counter at zero over one slot (node 2), and no further slot-count change happens.
The completion of the old node 1 then arms the timer although none of the completions of
that cycle has been observed: its own request (node 2) is still outstanding. -/
theorem barrier_broken_by_stale_completion :
    ((run (onload 2 0) [Event.input 1]).map
      (fun s => (s.all_done, s.num_svg, nodes s, s.xhttp, armed s)) =
        some (0, 1, [2], [0, 1, 2], false)) ∧
    ((run (onload 2 0) [Event.input 1, Event.response 1 200 (some (Number.fin 7))]).map
      (fun s => (armed s, s.xhttp)) = some (true, [0, 2])) := by
  decide!

/-- C3 fails as stated: one slot, its only request completes with status 500; every
request of the cycle has then settled, yet the timer is not armed. The same holds for
status 200 with a body that line 93 cannot read. -/
theorem failure_does_not_settle :
    (onload 1 0).xhttp = [0] ∧
    ((run (onload 1 0) [Event.response 0 500 none]).map
      (fun s => (armed s, s.xhttp, s.all_done)) = some (false, [], 0)) ∧
    ((run (onload 1 0) [Event.response 0 200 none]).map
      (fun s => (armed s, s.xhttp, s.all_done)) = some (false, [], 0)) := by
  decide!

/-- C3 as amended. A cycle started by `update` with the counter at zero, `num_svg` equal
to the number `N >= 1` of slots and no request of an earlier cycle outstanding; the `N`
completions of its requests arrive in any order with any outcome. All of them are
delivered, and once they are the timer is armed exactly when every one of them was
counted (status 200 and a body that line 93 reads as a number); a completion that is not
counted changes nothing at all, so it leaves the mean of its own slot and of every other
slot unchanged. -/
theorem settle_on_success (s0 : State) (cs : List Completion)
    (hN : 1 ≤ s0.arr_svg.length) (hnum : s0.num_svg = (s0.arr_svg.length : Int))
    (hzero : s0.all_done = 0) (hidle : s0.xhttp = [])
    (hperm : (cs.map Completion.node).Perm (nodes s0)) :
    (∃ s', run (update s0) (cs.map Completion.event) = some s' ∧ s'.xhttp = [] ∧
      (armed s' = true ↔ ∀ c ∈ cs, c.counted = true)) ∧
    (∀ (s : State) (c : Completion), c.counted = false → settle s c = s) := by
  have hx : (cs.map Completion.node).Perm (update s0).xhttp := by
    rw [update_idle s0 hidle]
    exact hperm
  obtain ⟨hd, hrem⟩ := deliverable_of_perm cs _ hx
  obtain ⟨_, _, h3, h4, _, _, _, _⟩ := update_fields s0
  have hlen : cs.length = s0.arr_svg.length := by
    have := hperm.length_eq
    simpa [nodes] using this
  have hz : (update s0).all_done = 0 := h4.trans hzero
  have hn : (update s0).num_svg = (cs.length : Int) := by rw [h3, hnum, hlen]
  refine ⟨⟨_, run_deliverable cs (update s0) hd, hrem, ⟨?_, ?_⟩⟩, settle_failure⟩
  · intro harm
    by_contra hnot
    have hlt' : successes cs < cs.length := by
      rcases Nat.lt_or_ge (successes cs) cs.length with h | h
      · exact h
      · exact absurd ((successes_eq_length cs).mp
          (le_antisymm (successes_le_length cs) h)) hnot
    have hlt : (((update s0).all_done + successes cs : Nat) : Int) < (update s0).num_svg := by
      rw [hz, hn]
      have : 0 + successes cs < cs.length := by omega
      exact_mod_cast this
    obtain ⟨h1, h2, _, _, _⟩ := foldl_settle_below cs (update s0) hlt
    have hfalse : armed { cs.foldl settle (update s0) with
        xhttp := remaining (update s0).xhttp cs } = false := by
      rw [← armed_update s0]
      exact armed_congr _ _ h1 h2
    rw [hfalse] at harm
    cases harm
  · intro hall
    have hne : cs ≠ [] := by
      intro h
      rw [h] at hlen
      simp at hlen
      omega
    have heq : (((update s0).all_done + cs.length : Nat) : Int) = (update s0).num_svg := by
      rw [hz, hn]
      simp
    obtain ⟨h1, h2, _, _⟩ := foldl_settle_reach cs (update s0) hne hall heq
    exact armed_of_fresh _ _ _ h1 h2

/-- Witness for C3 as amended: two slots, the second request answers first with a number,
the first answers 404. -/
theorem settle_on_success_witness :
    (1 ≤ (setup (globals 2 0)).arr_svg.length ∧
      (setup (globals 2 0)).num_svg = ((setup (globals 2 0)).arr_svg.length : Int) ∧
      (setup (globals 2 0)).all_done = 0 ∧
      ({ setup (globals 2 0) with xhttp := [] } : State).xhttp = [] ∧
      (([⟨1, 200, some (Number.fin 7)⟩, ⟨0, 404, none⟩] : List Completion).map
        Completion.node).Perm (nodes { setup (globals 2 0) with xhttp := [] })) ∧
    (∃ s', run (update { setup (globals 2 0) with xhttp := [] })
        (([⟨1, 200, some (Number.fin 7)⟩, ⟨0, 404, none⟩] : List Completion).map
          Completion.event) = some s' ∧ s'.xhttp = [] ∧
      (armed s' = true ↔
        ∀ c ∈ ([⟨1, 200, some (Number.fin 7)⟩, ⟨0, 404, none⟩] : List Completion),
          c.counted = true)) :=
  ⟨⟨by decide!, by decide!, by decide!, rfl, by decide!⟩,
    (settle_on_success { setup (globals 2 0) with xhttp := [] }
      [⟨1, 200, some (Number.fin 7)⟩, ⟨0, 404, none⟩]
      (by decide!) (by decide!) (by decide!) rfl (by decide!)).1⟩

/-- C5 fails on the code. Three slots in flight, slider moved to 2: the completion of the
removed third slot (node 2, status 200) raises the counter of the new cycle from 0 to 1.
Two slots in flight, slider moved to 1: the completion of the removed second slot
(node 1) arms the timer while the request of the new cycle (node 2) is outstanding, and
when that interval fires a second request is sent for node 2. -/
theorem stale_completion_is_counted :
    ((run (onload 3 0) [Event.input 2]).map (fun s => (nodes s, s.xhttp, s.all_done)) =
      some ([3, 4], [0, 1, 2, 3, 4], 0)) ∧
    ((run (onload 3 0) [Event.input 2, Event.response 2 200 (some (Number.fin 7))]).map
      (fun s => (s.all_done, armed s)) = some (1, false)) ∧
    ((run (onload 2 0) [Event.input 1]).map (fun s => (nodes s, s.xhttp, s.all_done)) =
      some ([2], [0, 1, 2], 0)) ∧
    ((run (onload 2 0) [Event.input 1, Event.response 1 200 (some (Number.fin 7))]).map
      (fun s => (s.all_done, armed s, s.xhttp)) = some (0, true, [0, 2])) ∧
    ((run (onload 2 0)
      [Event.input 1, Event.response 1 200 (some (Number.fin 7)), Event.tick 0]).map
      (fun s => s.xhttp) = some [0, 2, 2]) := by
  decide!

end App

namespace App

/-! ## C7, C8, C9: slot-count changes -/

/-- C7 fails as stated. One slot that has folded the sample 10; after the slider moves to
2 the pool holds two slots whose stored means are both `-1`, and the first of them is a
new object (node 1), not the previous slot (node 0). -/
theorem grow_drops_aggregates :
    ((run (onload 1 0) [Event.response 0 200 (some (Number.fin 10))]).map (fun s => (nodes s, means s)) =
      some ([0], [Number.fin 10])) ∧
    ((run (onload 1 0) [Event.response 0 200 (some (Number.fin 10)), Event.input 2]).map
      (fun s => (nodes s, means s)) = some ([1, 2], [Number.fin (-1), Number.fin (-1)])) := by
  decide!

/-- C7 as amended. For every pool of length `len` whose svgs are all in the document and
every `newSize > len`, after the slider moves to `newSize` the pool consists of exactly
`newSize` newly created slots, each with an absent aggregate and the text `loading..`;
none of the previous slots is among them. -/
theorem grow_recreates_slots (s : State) (newSize : Nat) (hA : Attached s)
    (hN : NodesAllocated s) (hgrow : s.arr_svg.length < newSize) :
    (oninput s newSize).arr_svg.length = newSize ∧
    s.arr_svg.length < (oninput s newSize).arr_svg.length ∧
    (∀ e ∈ (oninput s newSize).arr_svg,
      aggregate e = none ∧ e.svg.textContent = Label.loading) ∧
    (∀ e ∈ (oninput s newSize).arr_svg, ∀ old ∈ s.arr_svg, e.svg.node ≠ old.svg.node) := by
  rw [oninput_arr_svg s newSize hA]
  refine ⟨?_, ?_, ?_, ?_⟩
  · rw [freshSlots_length]
    simp
  · rw [freshSlots_length]
    simpa using hgrow
  · intro e he
    obtain ⟨h1, h2, _, _⟩ := mem_freshSlots _ _ e he
    exact ⟨(aggregate_eq_none e).mpr h1, h2⟩
  · intro e he old hold
    have h1 := (mem_freshSlots _ _ e he).2.2.1
    have h2 := hN old hold
    omega

/-- Witness for C7 as amended: a pool of one slot holding 10, slider moved to 2. -/
theorem grow_recreates_slots_witness :
    (Attached (settle (onload 1 0) ⟨0, 200, some (Number.fin 10)⟩) ∧
      NodesAllocated (settle (onload 1 0) ⟨0, 200, some (Number.fin 10)⟩) ∧
      (settle (onload 1 0) ⟨0, 200, some (Number.fin 10)⟩).arr_svg.length < 2) ∧
    (oninput (settle (onload 1 0) ⟨0, 200, some (Number.fin 10)⟩) ((2 : Nat) : Int)).arr_svg.length = 2 :=
  ⟨⟨by decide!, by decide!, by decide!⟩,
    (grow_recreates_slots (settle (onload 1 0) ⟨0, 200, some (Number.fin 10)⟩) 2
      (by decide!) (by decide!) (by decide!)).1⟩

/-- C8. For every pool whose svgs are all in the document and every `n >= 0`, moving the
slider to 0 and then to `n` yields a pool of exactly `n` slots, every one of which has an
absent aggregate. -/
theorem fresh_after_shrink_to_zero (s : State) (n : Nat) (hA : Attached s) :
    (oninput (oninput s 0) n).arr_svg.length = n ∧
    (∀ e ∈ (oninput (oninput s 0) n).arr_svg, aggregate e = none) := by
  have h0 : (oninput s 0).arr_svg = [] := by
    rw [oninput_arr_svg s 0 hA]
    rfl
  have hA0 : Attached (oninput s 0) := by
    unfold Attached
    rw [h0]
    exact Nat.zero_le _
  rw [oninput_arr_svg (oninput s 0) n hA0]
  refine ⟨?_, ?_⟩
  · rw [freshSlots_length]
    simp
  · intro e he
    exact (aggregate_eq_none e).mpr (mem_freshSlots _ _ e he).1

/-- Witness for C8: two slots holding 10 and 20; slider to 0, then to 3: three slots, all
absent. -/
theorem fresh_after_shrink_to_zero_witness :
    Attached (settle (settle (onload 2 0) ⟨0, 200, some (Number.fin 10)⟩) ⟨1, 200, some (Number.fin 20)⟩) ∧
    means (settle (settle (onload 2 0) ⟨0, 200, some (Number.fin 10)⟩) ⟨1, 200, some (Number.fin 20)⟩) = [Number.fin 10, Number.fin 20] ∧
    (oninput (oninput (settle (settle (onload 2 0) ⟨0, 200, some (Number.fin 10)⟩) ⟨1, 200, some (Number.fin 20)⟩) 0)
      ((3 : Nat) : Int)).arr_svg.length = 3 ∧
    (∀ e ∈ (oninput (oninput (settle (settle (onload 2 0) ⟨0, 200, some (Number.fin 10)⟩) ⟨1, 200, some (Number.fin 20)⟩) 0)
      ((3 : Nat) : Int)).arr_svg, aggregate e = none) :=
  ⟨by decide!, by decide!,
    fresh_after_shrink_to_zero (settle (settle (onload 2 0) ⟨0, 200, some (Number.fin 10)⟩) ⟨1, 200, some (Number.fin 20)⟩) 3
      (by decide!)⟩

/-- C9 fails as stated. Two slots; the slider value `-1` is not rejected: it is stored in
`num_svg` and the pool becomes empty. -/
theorem negative_count_not_rejected :
    (onload 2 0).arr_svg.length = 2 ∧
    (run (onload 2 0) [Event.input (-1)]).map (fun s => (s.arr_svg.length, s.num_svg)) =
      some (0, -1) := by
  decide!

/-- C9 as amended. For every pool whose svgs are all in the document, a slot-count change
to a negative value is accepted: the value is stored as the slot count, every slot is
removed, the timer is cancelled, and the cycle that is started sends no request; the
completion counter keeps its value. -/
theorem negative_count_empties_pool (s : State) (value : Int) (hA : Attached s)
    (hneg : value < 0) :
    (oninput s value).num_svg = value ∧
    (oninput s value).arr_svg = [] ∧
    armed (oninput s value) = false ∧
    (oninput s value).xhttp = s.xhttp ∧
    (oninput s value).all_done = s.all_done := by
  have htn : value.toNat = 0 := Int.toNat_eq_zero.mpr (le_of_lt hneg)
  obtain ⟨h1, h2, h3, _, _, h6, h7⟩ := oninput_fields s value
  have harr : (oninput s value).arr_svg = [] := by
    rw [oninput_arr_svg s value hA, htn]
    rfl
  refine ⟨h2, harr, h7, ?_, h3⟩
  rw [h6, ← h1, harr]
  simp

/-- Witness for C9 as amended: two slots, slider value `-1`. -/
theorem negative_count_empties_pool_witness :
    (Attached (onload 2 0) ∧ (-1 : Int) < 0) ∧
    ((oninput (onload 2 0) (-1)).num_svg = -1 ∧
      (oninput (onload 2 0) (-1)).arr_svg = [] ∧
      armed (oninput (onload 2 0) (-1)) = false ∧
      (oninput (onload 2 0) (-1)).xhttp = (onload 2 0).xhttp ∧
      (oninput (onload 2 0) (-1)).all_done = (onload 2 0).all_done) :=
  ⟨⟨by decide!, by decide⟩, negative_count_empties_pool (onload 2 0) (-1) (by decide!) (by decide)⟩

end App

namespace App

/-! ## The pool invariants hold in every reachable state -/

theorem settle_pool (s : State) (c : Completion) :
    (settle s c).arr_svg.length = s.arr_svg.length ∧
    (settle s c).arr_svg.map (fun (e : Slot) => e.svg.node) =
      s.arr_svg.map (fun (e : Slot) => e.svg.node) ∧
    (settle s c).svg_images = s.svg_images ∧ (settle s c).nextNode = s.nextNode := by
  have hmap : ∀ x : Number, (s.arr_svg.map
      (fun (e : Slot) => if e.svg.node = c.node then updateMean e x else e)).map
      (fun (e : Slot) => e.svg.node) = s.arr_svg.map (fun (e : Slot) => e.svg.node) := by
    intro x
    rw [List.map_map]
    apply List.map_congr_left
    intro e _
    show (if e.svg.node = c.node then updateMean e x else e).svg.node = e.svg.node
    split
    · exact updateMean_node e x
    · rfl
  cases h : c.counted with
  | true =>
    obtain ⟨hs, x, hb⟩ := (counted_iff c).mp h
    by_cases heq : ((s.all_done + 1 : Nat) : Int) = s.num_svg
    · rw [settle_reach s c x hs hb heq]
      exact ⟨List.length_map _ _, hmap x, rfl, rfl⟩
    · rw [settle_below s c x hs hb heq]
      exact ⟨List.length_map _ _, hmap x, rfl, rfl⟩
  | false =>
    rw [settle_failure s c h]
    exact ⟨rfl, rfl, rfl, rfl⟩

theorem nodesAllocated_iff (s : State) :
    NodesAllocated s ↔ ∀ k ∈ s.arr_svg.map (fun (e : Slot) => e.svg.node), k < s.nextNode := by
  unfold NodesAllocated
  simp [List.mem_map]

theorem step_pool (s s' : State) (ev : Event) (hA : Attached s) (hN : NodesAllocated s)
    (hstep : step s ev = some s') : Attached s' ∧ NodesAllocated s' := by
  cases ev with
  | input value =>
    have hs : s' = oninput s value := (Option.some.inj hstep).symm
    subst hs
    obtain ⟨_, _, _, h4, h5, _, _⟩ := oninput_fields s value
    have harr := oninput_arr_svg s value hA
    constructor
    · unfold Attached
      rw [harr, h4, freshSlots_length]
    · intro e he
      rw [harr] at he
      rw [h5]
      exact (mem_freshSlots _ _ e he).2.2.2
  | tick id =>
    simp only [step] at hstep
    split at hstep
    · have hs : s' = update s := (Option.some.inj hstep).symm
      subst hs
      obtain ⟨_, h2, _, _, h5, _, h7, _⟩ := update_fields s
      constructor
      · unfold Attached
        rw [h2, h5]
        exact hA
      · intro e he
        rw [h2] at he
        rw [h7]
        exact hN e he
    · cases hstep
  | response node status body =>
    simp only [step] at hstep
    split at hstep
    · have hs : s' = settle { s with xhttp := s.xhttp.erase node } ⟨node, status, body⟩ :=
        (Option.some.inj hstep).symm
      subst hs
      obtain ⟨h1, h2, h3, h4⟩ :=
        settle_pool { s with xhttp := s.xhttp.erase node } ⟨node, status, body⟩
      constructor
      · unfold Attached
        rw [h1, h3]
        exact hA
      · rw [nodesAllocated_iff, h2, h4]
        exact (nodesAllocated_iff s).mp hN
    · cases hstep

theorem onload_pool (value : Int) (children : Nat) :
    Attached (onload value children) ∧ NodesAllocated (onload value children) := by
  obtain ⟨h1, _, _, h4, h5, _, _⟩ := setup_fields (globals value children)
  have harr : (onload value children).arr_svg = freshSlots 0 value.toNat := h1.trans rfl
  have himg : (onload value children).svg_images = children + value.toNat := h4
  have hnode : (onload value children).nextNode = 0 + value.toNat := h5
  constructor
  · unfold Attached
    rw [harr, himg, freshSlots_length]
    omega
  · intro e he
    rw [harr] at he
    rw [hnode]
    exact (mem_freshSlots _ _ e he).2.2.2

/-- The hypotheses `Attached` and `NodesAllocated` used above hold in every state the
page can reach, whatever the slider value, the children of `svg_images` in the page and
the events. -/
theorem reachable_pool (value : Int) (children : Nat) (evs : List Event) :
    ∀ s : State, run (onload value children) evs = some s → Attached s ∧ NodesAllocated s := by
  have gen : ∀ (evs : List Event) (s s' : State), Attached s → NodesAllocated s →
      run s evs = some s' → Attached s' ∧ NodesAllocated s' := by
    intro evs
    induction evs with
    | nil =>
      intro s s' hA hN hrun
      have : s = s' := Option.some.inj hrun
      exact this ▸ ⟨hA, hN⟩
    | cons ev evs ih =>
      intro s s' hA hN hrun
      simp only [run] at hrun
      cases hstep : step s ev with
      | none => rw [hstep] at hrun; cases hrun
      | some t =>
        rw [hstep] at hrun
        obtain ⟨hA', hN'⟩ := step_pool s t ev hA hN hstep
        exact ih t s' hA' hN' hrun
  intro s hrun
  exact gen evs _ s (onload_pool value children).1 (onload_pool value children).2 hrun

end App

namespace App

/-! ## C6: the counter and the slot count -/

theorem onload_cycleInv (n children : Nat) : CycleInv (onload n children) := by
  obtain ⟨h1, h2, h3, _, _, h6, _⟩ := setup_fields (globals (n : Int) children)
  have hnum : (onload n children).num_svg = (n : Int) := h2
  have hdone : (onload n children).all_done = 0 := h3
  refine ⟨(onload_pool _ _).1, ?_⟩
  rcases Nat.eq_zero_or_pos n with hn | hn
  · right
    subst hn
    exact ⟨hnum, hdone, h6.trans rfl, h1.trans rfl⟩
  · left
    rw [hnum, hdone]
    exact_mod_cast hn

theorem settle_below_total (s : State) (c : Completion)
    (hlt : (s.all_done : Int) < s.num_svg) :
    (settle s c).num_svg = s.num_svg ∧ ((settle s c).all_done : Int) < (settle s c).num_svg := by
  cases h : c.counted with
  | true =>
    obtain ⟨hs, x, hb⟩ := (counted_iff c).mp h
    by_cases heq : ((s.all_done + 1 : Nat) : Int) = s.num_svg
    · rw [settle_reach s c x hs hb heq]
      refine ⟨rfl, ?_⟩
      show ((0 : Nat) : Int) < s.num_svg
      have : (0 : Int) ≤ (s.all_done : Int) := Int.ofNat_nonneg _
      simp only [Nat.cast_zero]
      omega
    · rw [settle_below s c x hs hb heq]
      refine ⟨rfl, ?_⟩
      show ((s.all_done + 1 : Nat) : Int) < s.num_svg
      push_cast at heq ⊢
      omega
  | false =>
    rw [settle_failure s c h]
    exact ⟨rfl, hlt⟩

theorem step_cycleInv (s s' : State) (ev : Event) (hg : guardOk s ev = true)
    (hinv : CycleInv s) (hstep : step s ev = some s') : CycleInv s' := by
  obtain ⟨hA, hcase⟩ := hinv
  cases ev with
  | input value =>
    have hs : s' = oninput s value := (Option.some.inj hstep).symm
    subst hs
    obtain ⟨_, h2, h3, h4, _, h6, _⟩ := oninput_fields s value
    have harr := oninput_arr_svg s value hA
    have hA' : Attached (oninput s value) := by
      unfold Attached
      rw [harr, h4, freshSlots_length]
    refine ⟨hA', ?_⟩
    simp only [guardOk, Bool.or_eq_true, Bool.and_eq_true, decide_eq_true_eq,
      List.isEmpty_iff] at hg
    rcases hg with hlt | ⟨⟨hv, hz⟩, hx⟩
    · left
      rw [h2, h3]
      exact hlt
    · right
      subst hv
      refine ⟨h2, h3.trans hz, ?_, harr.trans rfl⟩
      rw [h6, removeAll_eq_nil _ _ hA, hx]
      rfl
  | tick id =>
    simp only [step] at hstep
    split at hstep
    · have hs : s' = update s := (Option.some.inj hstep).symm
      subst hs
      obtain ⟨_, h2, h3, h4, h5, _, _, h8⟩ := update_fields s
      have hA' : Attached (update s) := by
        unfold Attached
        rw [h2, h5]
        exact hA
      refine ⟨hA', ?_⟩
      rcases hcase with hlt | ⟨hn, hz, hx, ha⟩
      · left
        rw [h4, h3]
        exact hlt
      · right
        refine ⟨h3.trans hn, h4.trans hz, ?_, h2.trans ha⟩
        rw [h8, hx, ha]
        rfl
    · cases hstep
  | response node status body =>
    simp only [step] at hstep
    split at hstep
    · rename_i hmem
      have hs : s' = settle { s with xhttp := s.xhttp.erase node } ⟨node, status, body⟩ :=
        (Option.some.inj hstep).symm
      subst hs
      obtain ⟨p1, _, p3, _⟩ :=
        settle_pool { s with xhttp := s.xhttp.erase node } ⟨node, status, body⟩
      have hA' : Attached
          (settle { s with xhttp := s.xhttp.erase node } ⟨node, status, body⟩) := by
        unfold Attached
        rw [p1, p3]
        exact hA
      refine ⟨hA', ?_⟩
      rcases hcase with hlt | ⟨_, _, hx, _⟩
      · exact Or.inl (settle_below_total
          { s with xhttp := s.xhttp.erase node } ⟨node, status, body⟩ hlt).2
      · rw [hx] at hmem
        cases hmem
    · cases hstep

theorem run_cycleInv (evs : List Event) :
    ∀ s s' : State, guarded s evs = true → CycleInv s → run s evs = some s' →
      CycleInv s' := by
  induction evs with
  | nil =>
    intro s s' _ hinv hrun
    have : s = s' := Option.some.inj hrun
    exact this ▸ hinv
  | cons ev evs ih =>
    intro s s' hg hinv hrun
    simp only [run] at hrun
    simp only [guarded, Bool.and_eq_true] at hg
    cases hstep : step s ev with
    | none => rw [hstep] at hrun; cases hrun
    | some t =>
      rw [hstep] at hrun hg
      exact ih t s' hg.2 (step_cycleInv s t ev hg.1 hinv hstep) hrun

/-- C6 fails as stated. Three slots; two requests succeed (counter 2), then the slider
moves to 1: the state is reachable, one request is issued for the new cycle, and the
counter 2 exceeds the slot count 1. One more completion takes the counter to 3. -/
theorem counter_exceeds_total :
    ((run (onload 3 0) [Event.response 0 200 (some (Number.fin 5)),
        Event.response 1 200 (some (Number.fin 7)), Event.input 1]).map
      (fun s => (s.all_done, s.num_svg, nodes s)) = some (2, 1, [3])) ∧
    (∃ s, run (onload 3 0) [Event.response 0 200 (some (Number.fin 5)),
        Event.response 1 200 (some (Number.fin 7)), Event.input 1] =
      some s ∧ ¬ CounterInRange s) ∧
    ((run (onload 3 0) [Event.response 0 200 (some (Number.fin 5)),
        Event.response 1 200 (some (Number.fin 7)), Event.input 1,
        Event.response 3 200 (some (Number.fin 9))]).map
      (fun s => (s.all_done, s.num_svg, armed s)) = some (3, 1, false)) := by
  refine ⟨by decide!, ?_, by decide!⟩
  cases h : run (onload 3 0) [Event.response 0 200 (some (Number.fin 5)),
      Event.response 1 200 (some (Number.fin 7)), Event.input 1] with
  | none => exact absurd h (by decide!)
  | some s =>
    refine ⟨s, rfl, ?_⟩
    have h2 : (run (onload 3 0) [Event.response 0 200 (some (Number.fin 5)),
        Event.response 1 200 (some (Number.fin 7)), Event.input 1]).map
        (fun s => (s.all_done, s.num_svg)) = some (2, 1) := by decide!
    rw [h] at h2
    have h3 : (s.all_done, s.num_svg) = (2, 1) := Option.some.inj h2
    have ha : s.all_done = 2 := congrArg Prod.fst h3
    have hb : s.num_svg = 1 := congrArg Prod.snd h3
    unfold CounterInRange
    rw [ha, hb]
    decide

/-- C6 as amended. In every state reachable from the initial state with a non-negative
slot count by any interleaving of request completions, timer firings (cycle starts) and
slot-count changes in which every slot-count change is guarded (its value is above the
counter at that moment, or it is 0 while the counter is 0 and no request is outstanding),
the counter satisfies `0 <= all_done <= num_svg`. A slot-count change sets `num_svg`, the
only total the script keeps, to the new value. -/
theorem counter_in_range_guarded (n children : Nat) (evs : List Event) (s : State)
    (hg : guarded (onload n children) evs = true)
    (hrun : run (onload n children) evs = some s) :
    CounterInRange s ∧ (∀ (t : State) (value : Int), (oninput t value).num_svg = value) := by
  constructor
  · obtain ⟨_, hcase⟩ := run_cycleInv evs _ s hg (onload_cycleInv n children) hrun
    unfold CounterInRange
    rcases hcase with hlt | ⟨hn, hz, _, _⟩
    · exact le_of_lt hlt
    · rw [hz, hn]
      rfl
  · intro t value
    exact (oninput_fields t value).2.1

/-- Witness for C6 as amended: three slots, one request succeeds, the slider moves to 5,
a request of the new cycle succeeds, the slider moves to 4. -/
theorem counter_in_range_guarded_witness :
    (guarded (onload 3 0) [Event.response 0 200 (some (Number.fin 5)), Event.input 5,
        Event.response 3 200 (some (Number.fin 7)), Event.input 4] = true ∧
      (run (onload 3 0) [Event.response 0 200 (some (Number.fin 5)), Event.input 5,
        Event.response 3 200 (some (Number.fin 7)), Event.input 4]).map
        (fun s => (s.all_done, s.num_svg)) = some (2, 4)) ∧
    (∀ s, run (onload 3 0) [Event.response 0 200 (some (Number.fin 5)), Event.input 5,
        Event.response 3 200 (some (Number.fin 7)), Event.input 4] = some s →
      CounterInRange s) :=
  ⟨⟨by decide!, by decide!⟩, fun s hs =>
    (counter_in_range_guarded 3 0 [Event.response 0 200 (some (Number.fin 5)), Event.input 5,
      Event.response 3 200 (some (Number.fin 7)), Event.input 4] s (by decide!) hs).1⟩

end App
